import Mathlib

/-!
Shallow embedding of the core of `src/app.py` (an in-classroom scoring game:
scoring engine, submission ledger over a flat CSV store guarded by a file
lock, leaderboard builder, admin reset), together with theorems settling the
frozen claims about it.

Conventions of the embedding:
* Python ints become `Int`; timestamps (`datetime.now(timezone.utc)` values,
  stored as ISO-8601 strings and parsed back with `pd.to_datetime` before any
  comparison) become `Nat` instants, since ISO-8601 UTC strings compare
  exactly as their instants do.
* The CSV file on disk becomes `StoreFile := Option Store`; `none` models a
  missing file, `Store` holds the column list and the rows.
* The `FileLock(...).acquire(timeout=5)` call is modelled by the time a caller
  would have to wait for the lock, `waitNeeded`: acquisition succeeds exactly
  when `waitNeeded ≤ lock_timeout`.
* `st.radio(..., index=None)` can yield Python `None`, so selected indices are
  `Option Int`; the answer index from the config is always a concrete `Int`.
-/

/-- A persisted submission row, the dict built in `main` (app.py lines
265-279).  `ts` is the instant denoted by the `ts_iso` field. -/
structure Row where
  ts : Nat
  round : Int
  team : String
  scenario_key : String
  scenario_title : String
  score : Int
  detail_problem : Int
  detail_goals : Int
  detail_model : Int
  detail_feas : Int
  detail_plan : Int
  minigame_score : Int
  minigame_bonus : Int
  deriving DecidableEq

/-- The column keys of the row dict, in insertion order (app.py lines
265-279). -/
def rowCols : List String :=
  ["ts_iso", "round", "team", "scenario_key", "scenario_title", "score",
   "detail_problem", "detail_goals", "detail_model", "detail_feas",
   "detail_plan", "minigame_score", "minigame_bonus"]

/-- The initial column schema created by `init_storage` (app.py lines
26-29). -/
def initCols : List String :=
  ["ts_iso", "round", "team", "scenario_key", "scenario_title", "score",
   "detail_problem", "detail_goals", "detail_model", "detail_feas",
   "detail_plan"]

/-- The backing CSV store: its header columns and its data rows. -/
structure Store where
  cols : List String
  rows : List Row
  deriving DecidableEq

/-- The store file on disk; `none` when `DATA_FILE` does not exist. -/
abbrev StoreFile := Option Store

/-- The empty store written by `init_storage` (app.py lines 24-30). -/
def initStore : Store := ⟨initCols, []⟩

/-- `init_storage` ensures the store exists and returns its contents: it
creates the empty schema-only store when the file is missing and never
overwrites an existing one (app.py lines 24-30). -/
def init_storage : StoreFile → Store
  | none => initStore
  | some st => st

/-- `read_submissions` (app.py lines 32-35): ensure the store exists, read
back all rows. -/
def read_submissions (s : StoreFile) : List Row :=
  (init_storage s).rows

/-- The lock timeout passed to `lock.acquire(timeout=5)` (app.py lines 41 and
372). -/
def lock_timeout : Nat := 5

/-- Lock acquisition with bounded wait: succeeds exactly when the lock becomes
free within the timeout. -/
def acquire (waitNeeded : Nat) : Bool :=
  waitNeeded ≤ lock_timeout

/-- `pd.concat([df, pd.DataFrame([row])])` appends the row and unions the
columns, keeping existing columns first (app.py line 43). -/
def appendRow (st : Store) (row : Row) : Store :=
  ⟨st.cols ++ rowCols.filter (fun c => ¬ st.cols.contains c), st.rows ++ [row]⟩

inductive WriteResult where
  | ok
  | busy
  deriving DecidableEq

/-- `write_submission` (app.py lines 37-46): ensure the store exists, acquire
the exclusive lock with a 5-unit timeout, then read-modify-write; on
`Timeout` report busy and leave the store as it is. -/
def write_submission (waitNeeded : Nat) (row : Row) (s : StoreFile) :
    WriteResult × StoreFile :=
  let st := init_storage s
  if acquire waitNeeded then (.ok, some (appendRow st row))
  else (.busy, some st)

/-- `score_section_single` (app.py lines 48-49).  Python compares with `==`,
under which `None == None` is `True`, hence the `Option Int` equality. -/
def score_section_single (selected_idx answer_idx : Option Int) (points : Int) : Int :=
  if selected_idx = answer_idx then points else 0

/-- `score_section_multi` (app.py lines 51-57): deduplicate both index
collections into sets, count hits and extras, clamp the raw score at zero. -/
def score_section_multi (selected_indices answer_indices : List Int)
    (points_each : Int) (penalize_extras : Bool) : Int :=
  let correct := answer_indices.toFinset
  let chosen := selected_indices.toFinset
  let hits : Int := (correct ∩ chosen).card
  let extras : Int := if penalize_extras then ((chosen \ correct).card : Int) else 0
  let raw := hits * points_each - (if penalize_extras then extras else 0)
  max raw 0

/-- One item of a `feasibility_binary` key: prompt text and expected
answer. -/
structure KeyItem where
  text : String
  answer : String
  deriving DecidableEq

/-- `score_binary` (app.py lines 59-63): walk `zip(answers, key_items)` and
add `points_each` per positional match.  `zip` stops at the shorter list. -/
def score_binary (answers : List String) (key_items : List KeyItem)
    (points_each : Int) : Int :=
  (answers.zip key_items).foldl
    (fun total gi => total + if gi.1 = gi.2.answer then points_each else 0) 0

/-- Modelled from the spec for comparison with `score_binary`:
`scoreBinaryKeyed` as the spec describes it, failing with `InvalidInput` on
mismatched lengths instead of returning a score. -/
def scoreBinaryKeyed_spec (answers : List String) (key_items : List KeyItem)
    (points_each : Int) : Except Unit Int :=
  if answers.length ≠ key_items.length then .error ()
  else .ok (score_binary answers key_items points_each)

/-- A single-choice section of a scenario block: `answer_index` and
`points`. -/
structure SingleQ where
  answer_index : Int
  points : Int
  deriving DecidableEq

/-- The multi-choice section: `answer_indices`, `points_each`, and the
optional `penalize_extras` key (read with `.get("penalize_extras", True)`). -/
structure MultiQ where
  answer_indices : List Int
  points_each : Int
  penalize_extras : Option Bool
  deriving DecidableEq

/-- The binary-keyed section: `question_items` and `points_each`. -/
structure BinaryQ where
  question_items : List KeyItem
  points_each : Int
  deriving DecidableEq

/-- A scenario block of the configuration (`cfg["scenarios"][scenario_key]`). -/
structure ScenarioBlock where
  problem_single : SingleQ
  goals_multi : MultiQ
  model_single : SingleQ
  feasibility_binary : BinaryQ
  plan_single : SingleQ
  deriving DecidableEq

/-- Python's `str.strip()`: drop whitespace from both ends of the string. -/
def pyStrip (s : String) : String :=
  ⟨((s.data.dropWhile Char.isWhitespace).reverse.dropWhile Char.isWhitespace).reverse⟩

/-- The submission path of `main` (app.py lines 231-280): the acceptance
gates (mini-game played, non-empty team after trimming, all three
single-choice questions answered), then the per-section scores, the mini-game
bonus, the total, and the persisted row.  Returns `none` when a gate rejects
the submission.  The feasibility answers are passed as the `"Yes"`/`"No"`
strings the radio widgets produce (the `0`/`1` round-trip through
`form_state` on lines 228 and 256 is the identity on those strings). -/
def submit (block : ScenarioBlock) (ts : Nat) (round_num : Int)
    (scenario_key scenario_title team : String)
    (prob_idx : Option Int) (goal_choices : List Int) (model_idx : Option Int)
    (feas_answers : List String) (plan_idx : Option Int)
    (minigame_score_int : Int) : Option Row :=
  if minigame_score_int < 1 then none
  else if pyStrip team = "" then none
  else if prob_idx = none ∨ model_idx = none ∨ plan_idx = none then none
  else
    let s1 := score_section_single prob_idx (some block.problem_single.answer_index)
      block.problem_single.points
    let s2 := score_section_multi goal_choices block.goals_multi.answer_indices
      block.goals_multi.points_each (block.goals_multi.penalize_extras.getD true)
    let s3 := score_section_single model_idx (some block.model_single.answer_index)
      block.model_single.points
    let s4 := score_binary feas_answers block.feasibility_binary.question_items
      block.feasibility_binary.points_each
    let s5 := score_section_single plan_idx (some block.plan_single.answer_index)
      block.plan_single.points
    let bonus : Int := if 15 ≤ minigame_score_int then 10 else 0
    let total := s1 + s2 + s3 + s4 + s5 + bonus
    some ⟨ts, round_num, pyStrip team, scenario_key, scenario_title, total,
      s1, s2, s3, s4, s5, minigame_score_int, bonus⟩

inductive ResetOutcome where
  | ok
  | authError
  | busy
  deriving DecidableEq

/-- The admin code: `os.getenv("ADMIN_CODE", "letmein")` (app.py line
363). -/
def admin_code (env : Option String) : String :=
  env.getD "letmein"

/-- The reset action (app.py lines 370-378): acquire the lock with the 5-unit
timeout, delete the store file, re-create the empty one; on `Timeout` leave
everything untouched. -/
def resetAll (waitNeeded : Nat) (s : StoreFile) : ResetOutcome × StoreFile :=
  if acquire waitNeeded then (.ok, some initStore) else (.busy, s)

/-- The instructor-controls path of `main` (app.py lines 365-378): exact
string comparison of the provided code against the configured one; on
mismatch report the auth error and change nothing, on match run the reset. -/
def admin_reset (provided configured : String) (waitNeeded : Nat)
    (s : StoreFile) : ResetOutcome × StoreFile :=
  if provided ≠ configured then (.authError, s) else resetAll waitNeeded s

/-- The round filter of the leaderboard (app.py line 340):
`df[df["round"] == show_round]`. -/
def viewOf (history : List Row) (rnd : Int) : List Row :=
  history.filter (fun r => r.round == rnd)

/-- Does `a` beat `b` for the per-team best pick: higher score, or equal
score achieved earlier?  This is the order in which
`sort_values(["team","score","ts_iso"], ascending=[True, False, True])`
followed by `groupby("team").first()` prefers rows within one team (app.py
lines 343-344). -/
def rowBetter (a b : Row) : Bool :=
  b.score < a.score || (a.score == b.score && a.ts < b.ts)

/-- Pick the best row out of `a` and the remaining candidates, scanning
left to right and replacing the current pick whenever a strictly better row
appears. -/
def pickBest : Row → List Row → Row
  | a, [] => a
  | a, b :: rest => pickBest (if rowBetter b a then b else a) rest

/-- The best record of team `t` in `view` — what
`groupby("team").first()` keeps for that team after the three-key sort
(app.py lines 343-344); `none` when the team has no record in the view. -/
def bestForTeam (view : List Row) (t : String) : Option Row :=
  match view.filter (fun r => r.team == t) with
  | [] => none
  | a :: rest => some (pickBest a rest)

/-- One best row per team present in the view (app.py lines 343-344). -/
def bestRows (view : List Row) : List Row :=
  ((view.map Row.team).dedup).filterMap (bestForTeam view)

/-- The final leaderboard order (app.py line 345):
`sort_values(["score","ts_iso"], ascending=[False, True])` — score
descending, then timestamp ascending. -/
def rankRel (a b : Row) : Prop :=
  b.score < a.score ∨ (a.score = b.score ∧ a.ts ≤ b.ts)

instance : DecidableRel rankRel := fun a b =>
  inferInstanceAs (Decidable (b.score < a.score ∨ (a.score = b.score ∧ a.ts ≤ b.ts)))

instance : IsTotal Row rankRel where
  total a b := by
    rcases lt_trichotomy a.score b.score with h | h | h
    · exact Or.inr (Or.inl h)
    · rcases le_total a.ts b.ts with h' | h'
      · exact Or.inl (Or.inr ⟨h, h'⟩)
      · exact Or.inr (Or.inr ⟨h.symm, h'⟩)
    · exact Or.inl (Or.inl h)

instance : IsTrans Row rankRel where
  trans a b c hab hbc := by
    rcases hab with h1 | ⟨h1, h1'⟩ <;> rcases hbc with h2 | ⟨h2, h2'⟩
    · exact Or.inl (h2.trans h1)
    · exact Or.inl (h2 ▸ h1)
    · exact Or.inl (h1 ▸ h2)
    · exact Or.inr ⟨h1.trans h2, h1'.trans h2'⟩

/-- Attach 1-based positional ranks (app.py line 346:
`best.insert(0, "rank", range(1, len(best)+1))`). -/
def withRanks : Nat → List Row → List (Nat × Row)
  | _, [] => []
  | i, r :: rs => (i, r) :: withRanks (i + 1) rs

/-- The leaderboard build of `main` (app.py lines 340-346): filter to the
round, keep the best record per team, sort by score descending then
timestamp ascending, attach positional ranks starting at 1. -/
def buildLeaderboard (history : List Row) (rnd : Int) : List (Nat × Row) :=
  withRanks 1 (List.insertionSort rankRel (bestRows (viewOf history rnd)))

/-- Events of the submission trace model.  `cap pid t` is process `pid`
evaluating `datetime.now(timezone.utc)` while building its row (app.py line
266); `write pid` is the same process then performing `write_submission`
under the lock (app.py line 280).  The two are separate events because the
timestamp is taken outside the critical section. -/
inductive LedgerEv where
  | cap (pid : Nat) (t : Nat)
  | write (pid : Nat)
  deriving DecidableEq

/-- A placeholder row carrying only the identity and capture time of the
submitting process; the other fields play no part in the timestamp claim. -/
def rowWithTs (pid t : Nat) : Row :=
  ⟨t, 1, toString pid, "", "", 0, 0, 0, 0, 0, 0, 0, 0⟩

/-- Run a trace: captures stash the process's timestamp, writes append the
stashed row through `write_submission` (the lock serializes writes, so each
write sees no contention by the time it runs). -/
def runTrace : List (Nat × Nat) → StoreFile → List LedgerEv → StoreFile
  | _, s, [] => s
  | pending, s, .cap pid t :: evs => runTrace ((pid, t) :: pending) s evs
  | pending, s, .write pid :: evs =>
      match pending.lookup pid with
      | some t => runTrace pending (write_submission 0 (rowWithTs pid t) s).2 evs
      | none => runTrace pending s evs

/-- The persisted timestamps, in write order, after running a trace from the
freshly initialized store. -/
def traceTimestamps (evs : List LedgerEv) : List Nat :=
  (init_storage (runTrace [] (some initStore) evs)).rows.map Row.ts

/-- The capture times of a trace, in trace order.  A monotone UTC clock
yields a non-decreasing such list. -/
def capTimes : List LedgerEv → List Nat
  | [] => []
  | .cap _ t :: evs => t :: capTimes evs
  | .write _ :: evs => capTimes evs

/-- Every write is preceded by a capture of the same process. -/
def writesValid : List Nat → List LedgerEv → Bool
  | _, [] => true
  | seen, .cap pid _ :: evs => writesValid (pid :: seen) evs
  | seen, .write pid :: evs => seen.contains pid && writesValid seen evs

/-- A trace is well-formed when its capture times are non-decreasing (the
clock is monotone) and every write has a prior capture by the same
process. -/
def wellFormedTrace (evs : List LedgerEv) : Prop :=
  List.Chain' (· ≤ ·) (capTimes evs) ∧ writesValid [] evs = true

instance (evs : List LedgerEv) : Decidable (wellFormedTrace evs) :=
  inferInstanceAs (Decidable (_ ∧ _))

/-- A fully sequential trace: each submission captures its timestamp and
immediately writes before the next submission begins. -/
def seqTrace : Nat → List Nat → List LedgerEv
  | _, [] => []
  | i, t :: ts => .cap i t :: .write i :: seqTrace (i + 1) ts

/-- A concrete scenario block used for concrete evaluations. -/
def exBlock : ScenarioBlock :=
  ⟨⟨1, 10⟩, ⟨[0], 2, none⟩, ⟨1, 10⟩, ⟨[⟨"q1", "Yes"⟩], 5⟩, ⟨1, 10⟩⟩

/-- The row `submit` produces for the concrete witness submission below. -/
def exRow1 : Row :=
  ⟨7, 1, "Alpha", "k", "t", 20, 10, 0, 0, 0, 10, 3, 0⟩

/-- The interleaved two-writer trace: both processes capture their
timestamps (5, then 6, on a monotone clock), then the later-stamped process
wins the lock race and writes first. -/
def exTrace : List LedgerEv :=
  [.cap 1 5, .cap 2 6, .write 2, .write 1]

/-- Row `y` is at least as good as row `x` for the leaderboard's best-record
choice: no lower score, and on equal score no later timestamp. -/
def dominates (y x : Row) : Prop :=
  x.score ≤ y.score ∧ (x.score = y.score → y.ts ≤ x.ts)

/-- Team alpha's first record: round 1, score 10, earliest timestamp. -/
def exRowA : Row := ⟨1, 1, "alpha", "k", "t", 10, 0, 0, 0, 0, 0, 0, 0⟩

/-- Team beta's record: round 1, score 12. -/
def exRowB : Row := ⟨2, 1, "beta", "k", "t", 12, 0, 0, 0, 0, 0, 0, 0⟩

/-- Team alpha's later, worse record: round 1, score 9. -/
def exRowA2 : Row := ⟨3, 1, "alpha", "k", "t", 9, 0, 0, 0, 0, 0, 0, 0⟩

/-- A record of another round, filtered out of the round-1 leaderboard. -/
def exRowC : Row := ⟨4, 2, "gamma", "k", "t", 99, 0, 0, 0, 0, 0, 0, 0⟩

/-- A concrete submission history for concrete leaderboard evaluations. -/
def exHist : List Row := [exRowA, exRowB, exRowA2, exRowC]

/-! ## Theorems -/

/-- C2: when the exclusive lock cannot be acquired within the 5-unit
timeout, the append fails with `Busy` and the backing store is exactly what
it was before the call — no partial rows, no truncation, no other change. -/
theorem write_submission_timeout_no_change (w : Nat) (row : Row) (st : Store)
    (h : lock_timeout < w) :
    write_submission w row (some st) = (WriteResult.busy, some st) := by
  have ha : acquire w = false := by
    simp only [acquire, decide_eq_false_iff_not]
    omega
  simp [write_submission, init_storage, ha]

theorem write_submission_timeout_no_change_witness :
    lock_timeout < 6 ∧
      write_submission 6 (rowWithTs 0 0) (some initStore) =
        (WriteResult.busy, some initStore) :=
  ⟨by decide, write_submission_timeout_no_change 6 (rowWithTs 0 0) initStore (by decide)⟩

/-- C5 counterexample: with both indices absent (Python `None == None` is
`True`), `score_section_single` returns the points, not 0 as the claim
demands. -/
theorem score_section_single_both_absent :
    score_section_single none none 10 = 10 ∧ score_section_single none none 10 ≠ 0 := by
  decide

/-- C5 (amended): `score_section_single` returns the points exactly when the
two indices are equal as optional values — including when both are the
absent marker — and 0 when they differ, in particular when exactly one of
them is absent. -/
theorem score_section_single_cases (i j p : Int) (h : i ≠ j) :
    score_section_single (some i) (some i) p = p ∧
    score_section_single (some i) (some j) p = 0 ∧
    score_section_single none (some i) p = 0 ∧
    score_section_single (some i) none p = 0 ∧
    score_section_single none none p = p := by
  simp [score_section_single, h]

theorem score_section_single_cases_witness :
    (0 : Int) ≠ 1 ∧ score_section_single (some 0) (some 1) 10 = 0 :=
  ⟨by decide, (score_section_single_cases 0 1 10 (by decide)).2.1⟩

/-- C6 counterexample: calling `score_binary` with two answers against a
one-item key — mismatched cardinality — returns the score 5 and raises
nothing, where the claim demands an `InvalidInput` failure (the
spec-modelled `scoreBinaryKeyed_spec` does fail there). -/
theorem score_binary_mismatch_returns_score :
    (["Yes", "Yes"] : List String).length ≠ [KeyItem.mk "q" "Yes"].length ∧
    score_binary ["Yes", "Yes"] [KeyItem.mk "q" "Yes"] 5 = 5 ∧
    scoreBinaryKeyed_spec ["Yes", "Yes"] [KeyItem.mk "q" "Yes"] 5 = .error () :=
  ⟨by decide, by decide, rfl⟩

/-- C7: a provided admin code different from the configured one (read from
the environment with the hardcoded fallback `"letmein"`) makes the reset
fail with the auth error and leaves the store untouched. -/
theorem admin_reset_wrong_code (provided : String) (env : Option String)
    (w : Nat) (s : StoreFile) (h : provided ≠ admin_code env) :
    admin_reset provided (admin_code env) w s = (ResetOutcome.authError, s) ∧
    admin_code none = "letmein" :=
  ⟨by simp [admin_reset, h], rfl⟩

theorem admin_reset_wrong_code_witness :
    "guess" ≠ admin_code none ∧
      (admin_reset "guess" (admin_code none) 0 (some initStore) =
          (ResetOutcome.authError, some initStore) ∧
        admin_code none = "letmein") :=
  ⟨by decide, admin_reset_wrong_code "guess" none 0 (some initStore) (by decide)⟩

/-- C8: a successful `resetAll` (lock acquired within the timeout) deletes
the store and reinitializes the empty one, so a following read yields zero
records and the store carries the initial column schema. -/
theorem resetAll_read_empty (w : Nat) (s : StoreFile) (h : acquire w = true) :
    resetAll w s = (ResetOutcome.ok, some initStore) ∧
    read_submissions (resetAll w s).2 = [] ∧
    (init_storage (resetAll w s).2).cols = initCols := by
  simp [resetAll, h, read_submissions, init_storage, initStore]

/-- Folding the binary-score accumulator from `c` is `c` plus folding it
from 0. -/
theorem score_binary_foldl_shift (l : List (String × KeyItem)) (p c : Int) :
    l.foldl (fun total gi => total + if gi.1 = gi.2.answer then p else 0) c
      = c + l.foldl (fun total gi => total + if gi.1 = gi.2.answer then p else 0) 0 := by
  induction l generalizing c with
  | nil => simp
  | cons gi l ih =>
    simp only [List.foldl_cons]
    rw [ih, ih ((0 : Int) + _)]
    ring

/-- Unfolding one step of `score_binary` on two nonempty lists. -/
theorem score_binary_cons (a : String) (as : List String) (k : KeyItem)
    (ks : List KeyItem) (p : Int) :
    score_binary (a :: as) (k :: ks) p =
      (if a = k.answer then p else 0) + score_binary as ks p := by
  simp only [score_binary, List.zip_cons_cons, List.foldl_cons]
  rw [score_binary_foldl_shift]
  ring

/-- `score_binary` only looks at the common prefix of its two lists. -/
theorem score_binary_take (answers : List String) (key : List KeyItem) (p : Int) :
    score_binary answers key p =
      score_binary (answers.take (min answers.length key.length))
        (key.take (min answers.length key.length)) p := by
  induction answers generalizing key with
  | nil => simp [score_binary]
  | cons a as ih =>
    cases key with
    | nil => simp [score_binary]
    | cons k ks =>
      simp only [List.length_cons, Nat.succ_min_succ, List.take_succ_cons]
      rw [score_binary_cons, score_binary_cons, ih]

/-- C6 (amended): `score_binary` does not validate the answer/key
cardinality; on mismatched lengths it raises nothing and silently scores
only the common prefix of the two lists (the `zip` truncation), ignoring
every item beyond the shorter length. -/
theorem score_binary_mismatch_truncates (answers : List String)
    (key : List KeyItem) (p : Int) (h : answers.length ≠ key.length) :
    score_binary answers key p =
      score_binary (answers.take (min answers.length key.length))
        (key.take (min answers.length key.length)) p :=
  score_binary_take answers key p

theorem score_binary_mismatch_truncates_witness :
    (["Yes", "No", "No"] : List String).length ≠
        [KeyItem.mk "q1" "Yes", KeyItem.mk "q2" "No"].length ∧
      score_binary ["Yes", "No", "No"] [KeyItem.mk "q1" "Yes", KeyItem.mk "q2" "No"] 5 =
        score_binary (["Yes", "No", "No"].take 2)
          ([KeyItem.mk "q1" "Yes", KeyItem.mk "q2" "No"].take 2) 5 :=
  ⟨by decide,
    score_binary_mismatch_truncates ["Yes", "No", "No"]
      [KeyItem.mk "q1" "Yes", KeyItem.mk "q2" "No"] 5 (by decide)⟩

/-- C10: `score_binary` equals the per-item points times the number of
positions below the shorter length at which the given answer matches the
key's expected answer; positions beyond the shorter list are ignored and no
error is raised (the function is total). -/
theorem score_binary_counts_matches (answers : List String) (key : List KeyItem)
    (p : Int) :
    score_binary answers key p =
      p * (((List.range (min answers.length key.length)).filter
        (fun i => decide (answers.getD i "" = (key.getD i ⟨"", ""⟩).answer))).length : Int) := by
  induction answers generalizing key with
  | nil => simp [score_binary]
  | cons a as ih =>
    cases key with
    | nil => simp [score_binary]
    | cons k ks =>
      rw [score_binary_cons, ih]
      simp only [List.length_cons, Nat.succ_min_succ, List.range_succ_eq_map,
        List.filter_cons, List.getD_cons_zero, List.filter_map, Function.comp_def,
        List.getD_cons_succ, List.length_map]
      by_cases hak : a = k.answer <;>
        simp [hak, Nat.cast_add, mul_add, add_comm]

/-- C4: `score_multi_choice` deduplicates both inputs into sets, computes
`raw = hits * pointsPerHit - (extras if penalizing else 0)` and returns
`max(raw, 0)`; the result is never negative, order and duplicates of both
inputs are irrelevant, and an exact-match selection scores
`|correct| * pointsPerHit` for nonnegative points. -/
theorem score_section_multi_spec (sel cor : List Int) (p : Int) (pen : Bool) :
    score_section_multi sel cor p pen =
      max (((cor.toFinset ∩ sel.toFinset).card : Int) * p -
        (if pen then ((sel.toFinset \ cor.toFinset).card : Int) else 0)) 0 ∧
    0 ≤ score_section_multi sel cor p pen ∧
    (∀ sel' cor' : List Int, sel.toFinset = sel'.toFinset →
      cor.toFinset = cor'.toFinset →
      score_section_multi sel cor p pen = score_section_multi sel' cor' p pen) ∧
    (0 ≤ p → sel.toFinset = cor.toFinset →
      score_section_multi sel cor p pen = (cor.toFinset.card : Int) * p) := by
  refine ⟨?_, ?_, ?_, ?_⟩
  · cases pen <;> simp [score_section_multi]
  · simp only [score_section_multi]
    exact le_max_right _ _
  · intro sel' cor' hs hc
    simp only [score_section_multi, hs, hc]
  · intro hp hm
    simp only [score_section_multi, hm, Finset.inter_self, Finset.sdiff_self,
      Finset.card_empty, Nat.cast_zero, ite_self, sub_zero]
    exact max_eq_left (mul_nonneg (Int.natCast_nonneg _) hp)

theorem score_section_multi_spec_witness :
    (0 : Int) ≤ 3 ∧ ([2, 1, 1] : List Int).toFinset = ([1, 2] : List Int).toFinset ∧
      score_section_multi [2, 1, 1] [1, 2] 3 true =
        ((([1, 2] : List Int).toFinset.card : Int)) * 3 :=
  ⟨by decide, by decide,
    (score_section_multi_spec [2, 1, 1] [1, 2] 3 true).2.2.2 (by decide) (by decide)⟩

/-- C1 counterexample: an accepted submission whose mini-game bonus is
unlocked (15 clicks) persists a total score of 10 while its per-section
scores sum to 0 — the stored total is not the sum of the per-section
scores. -/
theorem submit_total_counterexample :
    (submit exBlock 0 1 "k" "t" "Alpha" (some 0) [] (some 0) ["No"] (some 0) 15).map
      (fun r => decide (r.score = r.detail_problem + r.detail_goals +
        r.detail_model + r.detail_feas + r.detail_plan)) = some false := by
  decide

/-- C1 (amended): for every accepted submission, the persisted total score
is recomputed as the sum of the per-section scores stored in the same record
plus the mini-game bonus, which is 10 when the mini-game click count is at
least 15 and 0 otherwise; it is not stored independently of them. -/
theorem submit_score_sections_plus_bonus (block : ScenarioBlock) (ts : Nat)
    (rnd : Int) (skey stitle team : String) (prob : Option Int)
    (goals : List Int) (model : Option Int) (feas : List String)
    (plan : Option Int) (mg : Int) (r : Row)
    (h : submit block ts rnd skey stitle team prob goals model feas plan mg = some r) :
    r.score = r.detail_problem + r.detail_goals + r.detail_model +
      r.detail_feas + r.detail_plan + r.minigame_bonus ∧
    r.minigame_bonus = (if 15 ≤ mg then 10 else 0) := by
  unfold submit at h
  split at h
  · cases h
  split at h
  · cases h
  split at h
  · cases h
  injection h with h'
  subst h'
  exact ⟨rfl, rfl⟩

theorem submit_score_sections_plus_bonus_witness :
    exRow1.score = exRow1.detail_problem + exRow1.detail_goals +
        exRow1.detail_model + exRow1.detail_feas + exRow1.detail_plan +
        exRow1.minigame_bonus ∧
      exRow1.minigame_bonus = (if (15 : Int) ≤ 3 then 10 else 0) :=
  submit_score_sections_plus_bonus exBlock 7 1 "k" "t" "Alpha" (some 1) []
    (some 0) [] (some 1) 3 exRow1 (by decide)

/-- The capture times of a sequential trace are exactly the given list. -/
theorem capTimes_seqTrace (ts : List Nat) : ∀ i, capTimes (seqTrace i ts) = ts := by
  induction ts with
  | nil => intro i; rfl
  | cons t ts ih => intro i; simp [seqTrace, capTimes, ih]

/-- Every write of a sequential trace follows its own capture. -/
theorem writesValid_seqTrace (ts : List Nat) :
    ∀ i seen, writesValid seen (seqTrace i ts) = true := by
  induction ts with
  | nil => intro i seen; rfl
  | cons t ts ih => intro i seen; simp [seqTrace, writesValid, ih]

/-- Running a sequential trace appends exactly the captured timestamps to
the store, in capture order. -/
theorem seqTrace_rows (ts : List Nat) : ∀ i pending s,
    (init_storage (runTrace pending s (seqTrace i ts))).rows.map Row.ts
      = (init_storage s).rows.map Row.ts ++ ts := by
  induction ts with
  | nil => intro i pending s; simp [seqTrace, runTrace]
  | cons t ts ih =>
    intro i pending s
    have hw : write_submission 0 (rowWithTs i t) s =
        (WriteResult.ok, some (appendRow (init_storage s) (rowWithTs i t))) := by
      simp [write_submission, acquire, lock_timeout]
    simp only [seqTrace, runTrace, List.lookup, beq_self_eq_true, hw]
    rw [ih]
    simp [init_storage, appendRow, rowWithTs]

/-- C9 counterexample: a well-formed interleaving of two concurrent
submitters — timestamps captured on a monotone clock (5, then 6), lock then
won by the later-stamped process — persists the timestamps in write order
[6, 5], which is not monotonically non-decreasing. -/
theorem trace_timestamps_counterexample :
    wellFormedTrace exTrace ∧ traceTimestamps exTrace = [6, 5] ∧
    ¬ List.Chain' (· ≤ ·) (traceTimestamps exTrace) := by
  have h2 : traceTimestamps exTrace = [6, 5] := rfl
  refine ⟨⟨?_, by decide⟩, h2, ?_⟩
  · have h1 : capTimes exTrace = [5, 6] := rfl
    rw [h1]
    simp [List.chain'_cons]
  · rw [h2]
    intro hc
    exact absurd (List.chain'_cons.mp hc).1 (by omega)

/-- C9 (amended): the timestamp is captured before the ledger lock is
acquired, so concurrent writers can persist timestamps out of write order;
for sequential appends — each record's timestamp captured and written before
the next capture — with a monotone clock, the trace is well-formed, the
persisted timestamps are exactly the captured ones in order, and they are
monotonically non-decreasing in write order. -/
theorem timestamps_monotone_sequential (ts : List Nat)
    (h : List.Chain' (· ≤ ·) ts) :
    wellFormedTrace (seqTrace 0 ts) ∧
    traceTimestamps (seqTrace 0 ts) = ts ∧
    List.Chain' (· ≤ ·) (traceTimestamps (seqTrace 0 ts)) := by
  have htt : traceTimestamps (seqTrace 0 ts) = ts := by
    have hr := seqTrace_rows ts 0 [] (some initStore)
    simpa [traceTimestamps, init_storage, initStore] using hr
  exact ⟨⟨by rw [capTimes_seqTrace]; exact h, writesValid_seqTrace ts 0 []⟩, htt,
    by rw [htt]; exact h⟩

theorem timestamps_monotone_sequential_witness :
    List.Chain' (· ≤ ·) [3, 5] ∧ traceTimestamps (seqTrace 0 [3, 5]) = [3, 5] :=
  ⟨by simp [List.chain'_cons],
    (timestamps_monotone_sequential [3, 5] (by simp [List.chain'_cons])).2.1⟩

theorem resetAll_read_empty_witness :
    acquire 0 = true ∧
      (resetAll 0 (some (appendRow initStore (rowWithTs 0 3))) =
          (ResetOutcome.ok, some initStore) ∧
        read_submissions (resetAll 0 (some (appendRow initStore (rowWithTs 0 3)))).2 = [] ∧
        (init_storage (resetAll 0 (some (appendRow initStore (rowWithTs 0 3)))).2).cols = initCols) :=
  ⟨by decide, resetAll_read_empty 0 (some (appendRow initStore (rowWithTs 0 3))) (by decide)⟩

/-- Domination is reflexive. -/
theorem dominates_refl (a : Row) : dominates a a :=
  ⟨le_refl _, fun _ => le_refl _⟩

/-- Domination is transitive. -/
theorem dominates_trans {x y z : Row} (hzy : dominates z y) (hyx : dominates y x) :
    dominates z x := by
  obtain ⟨h1, h1'⟩ := hzy
  obtain ⟨h2, h2'⟩ := hyx
  refine ⟨h2.trans h1, fun he => ?_⟩
  have hxy : x.score = y.score := le_antisymm h2 (h1.trans he.symm.le)
  have hyz : y.score = z.score := le_antisymm h1 (he.symm.le.trans h2)
  exact (h1' hyz).trans (h2' hxy)

/-- The two-row pick dominates its left argument. -/
theorem pick_best_two_left (a b : Row) :
    dominates (if rowBetter b a then b else a) a := by
  cases hb : rowBetter b a with
  | false => simp only [hb, Bool.false_eq_true, if_false]; exact dominates_refl a
  | true =>
    simp only [hb, if_true]
    simp only [rowBetter, Bool.or_eq_true, decide_eq_true_eq, Bool.and_eq_true,
      beq_iff_eq] at hb
    rcases hb with h | ⟨h1, h2⟩
    · exact ⟨h.le, fun he => absurd (he ▸ h) (lt_irrefl _)⟩
    · exact ⟨h1.ge, fun _ => h2.le⟩

/-- The two-row pick dominates its right argument. -/
theorem pick_best_two_right (a b : Row) :
    dominates (if rowBetter b a then b else a) b := by
  cases hb : rowBetter b a with
  | true => simp only [hb, if_true]; exact dominates_refl b
  | false =>
    simp only [hb, Bool.false_eq_true, if_false]
    have hb' : ¬ (a.score < b.score ∨ (b.score = a.score ∧ b.ts < a.ts)) := by
      intro hcon
      have : rowBetter b a = true := by
        simp only [rowBetter, Bool.or_eq_true, decide_eq_true_eq, Bool.and_eq_true,
          beq_iff_eq]
        exact hcon
      rw [hb] at this
      cases this
    push_neg at hb'
    obtain ⟨h1, h2⟩ := hb'
    exact ⟨h1, fun he => h2 he⟩

/-- The picked row is one of the candidates. -/
theorem pickBest_mem : ∀ (l : List Row) (a : Row), pickBest a l ∈ a :: l := by
  intro l
  induction l with
  | nil => intro a; simp [pickBest]
  | cons b rest ih =>
    intro a
    have hgoal : pickBest a (b :: rest) =
        pickBest (if rowBetter b a then b else a) rest := rfl
    rw [hgoal]
    rcases List.mem_cons.mp (ih (if rowBetter b a then b else a)) with h | h
    · rw [h]
      cases hb : rowBetter b a
      · simp [hb]
      · simp [hb]
    · exact List.mem_cons_of_mem _ (List.mem_cons_of_mem _ h)

/-- The picked row dominates every candidate. -/
theorem pickBest_dominates : ∀ (l : List Row) (a x : Row),
    x ∈ a :: l → dominates (pickBest a l) x := by
  intro l
  induction l with
  | nil =>
    intro a x hx
    rw [List.mem_singleton] at hx
    exact hx ▸ dominates_refl a
  | cons b rest ih =>
    intro a x hx
    rcases List.mem_cons.mp hx with rfl | hx'
    · exact dominates_trans (ih _ _ (List.mem_cons_self _ _)) (pick_best_two_left x b)
    · rcases List.mem_cons.mp hx' with rfl | hx''
      · exact dominates_trans (ih _ _ (List.mem_cons_self _ _)) (pick_best_two_right a x)
      · exact ih _ _ (List.mem_cons_of_mem _ hx'')

/-- What `bestForTeam view t = some r` says about `r`: it is a record of
team `t` in the view and dominates every record of that team. -/
theorem bestForTeam_eq_some {view : List Row} {t : String} {r : Row}
    (h : bestForTeam view t = some r) :
    r ∈ view ∧ r.team = t ∧ ∀ x ∈ view, x.team = t → dominates r x := by
  unfold bestForTeam at h
  cases hf : view.filter (fun row => row.team == t) with
  | nil => rw [hf] at h; cases h
  | cons a rest =>
    rw [hf] at h
    injection h with h'
    subst h'
    have hmem : pickBest a rest ∈ a :: rest := pickBest_mem rest a
    rw [← hf] at hmem
    have hmem' := List.mem_filter.mp hmem
    refine ⟨hmem'.1, by simpa using hmem'.2, ?_⟩
    intro x hx hxt
    have hxf : x ∈ view.filter (fun row => row.team == t) :=
      List.mem_filter.mpr ⟨hx, by simpa using hxt⟩
    rw [hf] at hxf
    exact pickBest_dominates rest a x hxf

/-- Every team present in the view has a best record. -/
theorem bestForTeam_of_mem {view : List Row} {t : String}
    (h : t ∈ view.map Row.team) :
    ∃ r, bestForTeam view t = some r ∧ r.team = t := by
  obtain ⟨x, hx, rfl⟩ := List.mem_map.mp h
  cases hf : view.filter (fun row => row.team == x.team) with
  | nil =>
    exfalso
    have hxm : x ∈ view.filter (fun row => row.team == x.team) :=
      List.mem_filter.mpr ⟨hx, by simp⟩
    rw [hf] at hxm
    cases hxm
  | cons a rest =>
    refine ⟨pickBest a rest, ?_, ?_⟩
    · unfold bestForTeam
      rw [hf]
    · have hmem : pickBest a rest ∈ a :: rest := pickBest_mem rest a
      rw [← hf] at hmem
      simpa using (List.mem_filter.mp hmem).2

/-- Collecting best records over a list of present teams keeps exactly those
teams, in order. -/
theorem filterMap_bestForTeam_map_team (view : List Row) :
    ∀ ts : List String, (∀ t ∈ ts, t ∈ view.map Row.team) →
      (ts.filterMap (bestForTeam view)).map Row.team = ts := by
  intro ts
  induction ts with
  | nil => intro _; rfl
  | cons t ts ih =>
    intro h
    obtain ⟨r, hr, hrt⟩ := bestForTeam_of_mem (h t (List.mem_cons_self _ _))
    rw [List.filterMap_cons, hr, List.map_cons, hrt,
      ih (fun t' ht' => h t' (List.mem_cons_of_mem _ ht'))]

/-- The teams of the best rows are exactly the deduplicated teams of the
view. -/
theorem bestRows_map_team (view : List Row) :
    (bestRows view).map Row.team = (view.map Row.team).dedup :=
  filterMap_bestForTeam_map_team view _ (fun _ ht => List.mem_dedup.mp ht)

/-- Every best row is a record of the view dominating its whole team. -/
theorem bestRows_mem {view : List Row} {r : Row} (h : r ∈ bestRows view) :
    r ∈ view ∧ ∀ x ∈ view, x.team = r.team → dominates r x := by
  obtain ⟨t, _, hr⟩ := List.mem_filterMap.mp h
  obtain ⟨h1, h2, h3⟩ := bestForTeam_eq_some hr
  exact ⟨h1, fun x hx hxt => h3 x hx (hxt.trans h2)⟩

/-- Every record's team appears among the best rows' teams. -/
theorem bestRows_covers {view : List Row} {x : Row} (hx : x ∈ view) :
    x.team ∈ (bestRows view).map Row.team := by
  rw [bestRows_map_team]
  exact List.mem_dedup.mpr (List.mem_map_of_mem Row.team hx)

/-- Rank attachment does not change the rows. -/
theorem withRanks_map_snd : ∀ (i : Nat) (l : List Row),
    (withRanks i l).map Prod.snd = l
  | _, [] => rfl
  | i, r :: rs => by simp [withRanks, withRanks_map_snd (i + 1) rs]

/-- The attached ranks are the consecutive integers starting at `i`. -/
theorem withRanks_map_fst : ∀ (i : Nat) (l : List Row),
    (withRanks i l).map Prod.fst = List.range' i l.length
  | _, [] => rfl
  | i, r :: rs => by
    simp [withRanks, withRanks_map_fst (i + 1) rs, List.range'_succ]

/-- A ranked entry's row is one of the ranked rows. -/
theorem withRanks_mem_snd {i : Nat} {l : List Row} {p : Nat × Row}
    (h : p ∈ withRanks i l) : p.2 ∈ l := by
  have hm := List.mem_map_of_mem Prod.snd h
  rwa [withRanks_map_snd] at hm

/-- Membership in the round filter. -/
theorem mem_viewOf {history : List Row} {rnd : Int} {x : Row} :
    x ∈ viewOf history rnd ↔ x ∈ history ∧ x.round = rnd := by
  simp [viewOf, List.mem_filter]

/-- C3: for every history and round, the leaderboard build filters to
records of that round, keeps one row per team — a record of the team that
dominates every record of the same team in that round (highest score, ties
broken by earliest timestamp) — covers every team with a record in the
round, lists the rows sorted by score descending then timestamp ascending,
and attaches the dense positional ranks 1..n in that order. -/
theorem buildLeaderboard_spec (history : List Row) (rnd : Int) :
    (∀ p ∈ buildLeaderboard history rnd, p.2 ∈ history ∧ p.2.round = rnd) ∧
    (((buildLeaderboard history rnd).map Prod.snd).map Row.team).Nodup ∧
    (∀ x ∈ history, x.round = rnd →
      x.team ∈ ((buildLeaderboard history rnd).map Prod.snd).map Row.team) ∧
    (∀ p ∈ buildLeaderboard history rnd, ∀ x ∈ history, x.round = rnd →
      x.team = p.2.team →
      x.score ≤ p.2.score ∧ (x.score = p.2.score → p.2.ts ≤ x.ts)) ∧
    List.Sorted rankRel ((buildLeaderboard history rnd).map Prod.snd) ∧
    (buildLeaderboard history rnd).map Prod.fst =
      List.range' 1 (buildLeaderboard history rnd).length := by
  have hsnd : (buildLeaderboard history rnd).map Prod.snd =
      List.insertionSort rankRel (bestRows (viewOf history rnd)) :=
    withRanks_map_snd 1 _
  have hperm : List.Perm (List.insertionSort rankRel (bestRows (viewOf history rnd)))
      (bestRows (viewOf history rnd)) := List.perm_insertionSort _ _
  have hmem : ∀ p ∈ buildLeaderboard history rnd,
      p.2 ∈ bestRows (viewOf history rnd) := by
    intro p hp
    exact hperm.mem_iff.mp (withRanks_mem_snd hp)
  refine ⟨?_, ?_, ?_, ?_, ?_, ?_⟩
  · intro p hp
    exact mem_viewOf.mp (bestRows_mem (hmem p hp)).1
  · rw [hsnd]
    rw [(hperm.map Row.team).nodup_iff, bestRows_map_team]
    exact List.nodup_dedup _
  · intro x hx hr
    rw [hsnd]
    exact (hperm.map Row.team).mem_iff.mpr
      (bestRows_covers (mem_viewOf.mpr ⟨hx, hr⟩))
  · intro p hp x hx hxr hxt
    exact (bestRows_mem (hmem p hp)).2 x (mem_viewOf.mpr ⟨hx, hxr⟩) hxt
  · rw [hsnd]
    exact List.sorted_insertionSort rankRel _
  · have hl : (buildLeaderboard history rnd).length =
        (List.insertionSort rankRel (bestRows (viewOf history rnd))).length := by
      rw [← hsnd, List.length_map]
    rw [hl]
    exact withRanks_map_fst 1 _

theorem buildLeaderboard_spec_witness :
    ((buildLeaderboard exHist 1).map Prod.fst =
        List.range' 1 (buildLeaderboard exHist 1).length) ∧
      (exRowA2.score ≤ exRowA.score ∧
        (exRowA2.score = exRowA.score → exRowA.ts ≤ exRowA2.ts)) := by
  have h := buildLeaderboard_spec exHist 1
  refine ⟨h.2.2.2.2.2, ?_⟩
  exact h.2.2.2.1 (2, exRowA) (by decide) exRowA2 (by decide) (by decide) (by decide)
